import Mathlib

/-!
Verification of `update_agents_with_serena.py`.

The script reads each agent markdown file, immediately splits its content on
`'\n'`, and from then on works purely on the resulting list of lines, finally
joining with `'\n'` and writing back.  We therefore model a document as a
`List String` of its lines (the spec's own data model: "an ordered sequence of
text lines").  The needles of the two substring tests
(`"## Serena MCP Integration"` and `"serena"`) contain no newline, so a
substring occurrence in the whole content is exactly a substring occurrence in
some line; the membership tests are modelled per line accordingly.

String primitives (`strip`, `startswith`, `in`, `lower`) are modelled on the
character list underlying the string: Python `str.strip()` removes whitespace
from both ends (modelled with `Char.isWhitespace`), `str.startswith`
is list-prefix, `in` is contiguous-sublist occurrence, and `str.lower()`
lowercases each character.
-/

/-- Python `a.startswith(b)` on character lists: `pat` is a prefix of `s`. -/
def isPre (pat s : List Char) : Bool :=
  match pat, s with
  | [], _ => true
  | _ :: _, [] => false
  | a :: as, b :: bs => a == b && isPre as bs

/-- Python `pat in s` on character lists: `pat` occurs contiguously in `s`. -/
def isSub (pat s : List Char) : Bool :=
  match s with
  | [] => pat.isEmpty
  | _ :: cs => isPre pat s || isSub pat cs

/-- Python `s.startswith(pat)` for strings. -/
def startsWithStr (s pat : String) : Bool := isPre pat.data s.data

/-- Python `pat in s` for strings. -/
def containsStr (s pat : String) : Bool := isSub pat.data s.data

/-- Python `s.lower()` (ASCII case folding, which is all the script needs). -/
def lowerStr (s : String) : String := ⟨s.data.map Char.toLower⟩

/-- Python `s.strip()`: drop whitespace from both ends of the character list. -/
def stripChars (l : List Char) : List Char :=
  ((l.dropWhile Char.isWhitespace).reverse.dropWhile Char.isWhitespace).reverse

/-- Python `s.strip()` for strings. -/
def strip (s : String) : String := ⟨stripChars s.data⟩

/-- A line is blank when `line.strip() == ''`. -/
def isBlank (l : String) : Bool := strip l == ""

/-- The target heading, `"## Serena MCP Integration"` (source line 45). -/
def serenaHeading : String := "## Serena MCP Integration"

/-- The anchor list `final_sections` of `find_insertion_point` (lines 77-83). -/
def finalSections : List String :=
  ["## Example Interactions",
   "## Key Distinctions",
   "## Output Examples",
   "## Workflow Position",
   "## See Also"]

/-- `already_has_serena_section` (source lines 30-32):
`"## Serena MCP Integration" in content or "serena" in content.lower()`.
Both needles are newline-free, so the content-level substring test is the
per-line substring test. -/
def already_has_serena_section (lines : List String) : Bool :=
  lines.any (fun l => containsStr l serenaHeading || containsStr (lowerStr l) "serena")

/-- First index of a line satisfying `p`, scanning in document order; models
the `for i, line in enumerate(lines): ... break` loops of the source. -/
def firstIdx (p : String → Bool) : List String → Option Nat
  | [] => none
  | l :: ls => if p l then some 0 else (firstIdx p ls).map (· + 1)

/-- The end-of-section test of `find_serena_section_bounds` (source line 54):
`lines[i].strip().startswith("## ") and not lines[i].strip().startswith("### ")`. -/
def isL2Heading (l : String) : Bool :=
  startsWithStr (strip l) "## " && !(startsWithStr (strip l) "### ")

/-- The `while end_line > start_line and lines[end_line - 1].strip() == '':
end_line -= 1` loop of `find_serena_section_bounds` (source lines 63-64). -/
def trimTrailingBlanks (lines : List String) (s : Nat) : Nat → Nat
  | 0 => 0
  | e + 1 =>
    if s ≤ e ∧ isBlank (lines.getD e "") = true then trimTrailingBlanks lines s e
    else e + 1

/-- `find_serena_section_bounds` (source lines 34-66): first line whose
stripped text equals the heading starts the section; the first later line that
is a level-2 heading (or end of document) is the exclusive end, backed up over
trailing blank lines. -/
def find_serena_section_bounds (lines : List String) : Option (Nat × Nat) :=
  match firstIdx (fun l => strip l == serenaHeading) lines with
  | none => none
  | some s =>
    let e0 :=
      match firstIdx isL2Heading (lines.drop (s + 1)) with
      | some k => s + 1 + k
      | none => lines.length
    some (s, trimTrailingBlanks lines s e0)

/-- A line whose stripped text starts with one of the anchor strings
(the inner loop of `find_insertion_point`, source lines 88-91). -/
def anchorLine (l : String) : Bool :=
  finalSections.any (fun sec => startsWithStr (strip l) sec)

/-- The scan of `find_insertion_point` (source lines 86-91): walk the lines in
order, keeping the minimum index of any anchor line, starting from
`len(lines)`. -/
def insertionScanAux : List String → Nat → Nat → Nat
  | [], _, acc => acc
  | l :: ls, i, acc =>
    insertionScanAux ls (i + 1) (if anchorLine l then min acc i else acc)

/-- The `while start > 0 and lines[start - 1].strip() == '': start -= 1`
back-up loops (source lines 98-99 and 122-123). -/
def backUpOverBlanks (lines : List String) : Nat → Nat
  | 0 => 0
  | s + 1 =>
    if isBlank (lines.getD s "") = true then backUpOverBlanks lines s
    else s + 1

/-- `find_insertion_point` (source lines 68-101). -/
def find_insertion_point (lines : List String) : Nat :=
  let n := lines.length
  let insertionLine := insertionScanAux lines 0 n
  if insertionLine == n then n
  else backUpOverBlanks lines insertionLine

/-- The content rewrite of `update_agent_file` (source lines 103-160): `none`
when the section bounds cannot be found (the file is then not written), else
the new line sequence. -/
def update_agent_lines (template lines : List String) : Option (List String) :=
  if already_has_serena_section lines then
    match find_serena_section_bounds lines with
    | none => none
    | some (s, e) =>
      let s2 := backUpOverBlanks lines s
      some (lines.take s2 ++ ["", ""] ++ template ++ ["", ""] ++ lines.drop e)
  else
    let ip := find_insertion_point lines
    some (lines.take ip ++ ["", ""] ++ template ++ ["", ""] ++ lines.drop ip)

/-- `update_agent_file` (source lines 103-160) as observed by `main`: success
flag, status message, and the file content after the call (unchanged when the
bounds lookup fails, since no write happens on that path). -/
def update_agent_file (template lines : List String) :
    Bool × String × List String :=
  match update_agent_lines template lines with
  | none => (false, "Could not find Serena section bounds", lines)
  | some out =>
    (true,
     if already_has_serena_section lines then "Replaced existing Serena section"
     else "Added new Serena section",
     out)

/-- The per-file loop of `main` (source lines 182-195): every file is
processed independently with the same template. -/
def processDocs (template : List String) (docs : List (List String)) :
    List (Bool × String × List String) :=
  docs.map (update_agent_file template)

/-- The document transformation as a total function: the rewritten content on
success, the unchanged content on failure. -/
def transformLines (template lines : List String) : List String :=
  (update_agent_lines template lines).getD lines

/-- The non-blank lines of a document, in order. -/
def nonblankLines (l : List String) : List String :=
  l.filter (fun x => !(isBlank x))

/-! ### Characterizations of the string primitives -/

theorem isPre_iff {p s : List Char} : isPre p s = true ↔ ∃ t, s = p ++ t := by
  induction p generalizing s with
  | nil => simp [isPre]
  | cons a as ih =>
    cases s with
    | nil => simp [isPre]
    | cons b bs =>
      simp only [isPre, Bool.and_eq_true, beq_iff_eq, ih]
      constructor
      · rintro ⟨rfl, t, rfl⟩; exact ⟨t, rfl⟩
      · rintro ⟨t, h⟩
        cases h
        exact ⟨rfl, t, rfl⟩

theorem isSub_iff {p s : List Char} : isSub p s = true ↔ ∃ t u, s = t ++ p ++ u := by
  induction s with
  | nil =>
    simp only [isSub, List.isEmpty_iff]
    constructor
    · rintro rfl; exact ⟨[], [], rfl⟩
    · rintro ⟨t, u, h⟩
      rcases List.append_eq_nil.1 h.symm with ⟨h1, h2⟩
      exact (List.append_eq_nil.1 h1).2
  | cons c cs ih =>
    simp only [isSub, Bool.or_eq_true, isPre_iff, ih]
    constructor
    · rintro (⟨t, ht⟩ | ⟨t, u, ht⟩)
      · exact ⟨[], t, by simpa using ht⟩
      · exact ⟨c :: t, u, by simp [ht]⟩
    · rintro ⟨t, u, h⟩
      cases t with
      | nil => exact Or.inl ⟨u, by simpa using h⟩
      | cons x xs =>
        rcases List.cons_eq_cons.1 h with ⟨rfl, h2⟩
        exact Or.inr ⟨xs, u, h2⟩

theorem containsStr_iff {s pat : String} :
    containsStr s pat = true ↔ ∃ t u, s.data = t ++ pat.data ++ u := isSub_iff

theorem startsWithStr_iff {s pat : String} :
    startsWithStr s pat = true ↔ ∃ t, s.data = pat.data ++ t := isPre_iff

theorem stripChars_sub (l : List Char) : ∃ t u, l = t ++ stripChars l ++ u := by
  refine ⟨l.takeWhile Char.isWhitespace,
    ((l.dropWhile Char.isWhitespace).reverse.takeWhile Char.isWhitespace).reverse, ?_⟩
  conv_lhs => rw [← List.takeWhile_append_dropWhile (p := Char.isWhitespace) (l := l)]
  rw [List.append_assoc]
  congr 1
  conv_lhs => rw [← List.reverse_reverse (l.dropWhile Char.isWhitespace)]
  conv_lhs =>
    rw [← List.takeWhile_append_dropWhile (p := Char.isWhitespace)
      (l := (l.dropWhile Char.isWhitespace).reverse)]
  rw [List.reverse_append]
  rfl

theorem strip_eq_imp_contains {l h : String} (hs : strip l = h) :
    containsStr l h = true := by
  rw [containsStr_iff]
  rcases stripChars_sub l.data with ⟨t, u, hl⟩
  refine ⟨t, u, ?_⟩
  rw [← hs]
  exact hl

theorem contains_heading_imp_serena {l : String}
    (hc : containsStr l serenaHeading = true) :
    containsStr (lowerStr l) "serena" = true := by
  rw [containsStr_iff] at hc ⊢
  rcases hc with ⟨t, u, hl⟩
  refine ⟨t.map Char.toLower ++ "## ".data,
    " mcp integration".data ++ u.map Char.toLower, ?_⟩
  have hdata : (lowerStr l).data = l.data.map Char.toLower := rfl
  rw [hdata, hl]
  simp only [List.map_append]
  have hhead : serenaHeading.data.map Char.toLower
      = "## ".data ++ "serena".data ++ " mcp integration".data := by decide
  rw [hhead]
  simp [List.append_assoc]

/-! ### Characterizations of the scanning helpers -/

theorem firstIdx_nil (p : String → Bool) : firstIdx p [] = none := rfl

theorem firstIdx_cons (p : String → Bool) (a : String) (as : List String) :
    firstIdx p (a :: as)
      = if p a then some 0 else (firstIdx p as).map (· + 1) := rfl

theorem firstIdx_eq_none_iff {p : String → Bool} {l : List String} :
    firstIdx p l = none ↔ ∀ x ∈ l, p x = false := by
  induction l with
  | nil => simp [firstIdx_nil]
  | cons a as ih =>
    by_cases hp : p a = true
    · simp [firstIdx_cons, hp]
    · have hpf : p a = false := by simpa using hp
      simp [firstIdx_cons, hpf, Option.map_eq_none', ih]

theorem firstIdx_eq_some_lt {p : String → Bool} {l : List String} {j : Nat}
    (h : firstIdx p l = some j) : j < l.length := by
  induction l generalizing j with
  | nil => simp [firstIdx_nil] at h
  | cons a as ih =>
    by_cases hp : p a = true
    · rw [firstIdx_cons, if_pos hp] at h
      cases h
      simp
    · have hpf : p a = false := by simpa using hp
      rw [firstIdx_cons, hpf] at h
      simp only [Bool.false_eq_true, if_false, Option.map_eq_some'] at h
      rcases h with ⟨k, hk, rfl⟩
      have := ih hk
      simp only [List.length_cons]
      omega

theorem firstIdx_eq_some_getD {p : String → Bool} {l : List String} {j : Nat}
    (h : firstIdx p l = some j) : p (l.getD j "") = true := by
  induction l generalizing j with
  | nil => simp [firstIdx_nil] at h
  | cons a as ih =>
    by_cases hp : p a = true
    · rw [firstIdx_cons, if_pos hp] at h
      cases h
      simpa using hp
    · have hpf : p a = false := by simpa using hp
      rw [firstIdx_cons, hpf] at h
      simp only [Bool.false_eq_true, if_false, Option.map_eq_some'] at h
      rcases h with ⟨k, hk, rfl⟩
      simpa using ih hk

theorem firstIdx_eq_some_before {p : String → Bool} {l : List String} {j : Nat}
    (h : firstIdx p l = some j) : ∀ i, i < j → p (l.getD i "") = false := by
  induction l generalizing j with
  | nil => simp [firstIdx_nil] at h
  | cons a as ih =>
    by_cases hp : p a = true
    · rw [firstIdx_cons, if_pos hp] at h
      cases h
      intro i hi
      omega
    · have hpf : p a = false := by simpa using hp
      rw [firstIdx_cons, hpf] at h
      simp only [Bool.false_eq_true, if_false, Option.map_eq_some'] at h
      rcases h with ⟨k, hk, rfl⟩
      intro i hi
      cases i with
      | zero => simpa using hpf
      | succ i => exact ih hk i (by omega)

theorem firstIdx_eq_some_intro {p : String → Bool} {l : List String} {j : Nat}
    (hj : j < l.length) (hp : p (l.getD j "") = true)
    (hb : ∀ i, i < j → p (l.getD i "") = false) : firstIdx p l = some j := by
  induction l generalizing j with
  | nil => simp at hj
  | cons a as ih =>
    cases j with
    | zero =>
      simp only [List.getD_cons_zero] at hp
      simp [firstIdx_cons, hp]
    | succ j =>
      have ha : p a = false := by simpa using hb 0 (by omega)
      rw [firstIdx_cons, ha]
      simp only [Bool.false_eq_true, if_false]
      have hrec : firstIdx p as = some j := by
        refine ih (by simpa using hj) (by simpa using hp) ?_
        intro i hi
        simpa using hb (i + 1) (by omega)
      rw [hrec]
      rfl

theorem firstIdx_append_some {p : String → Bool} {a b : List String} {j : Nat}
    (h : firstIdx p a = some j) : firstIdx p (a ++ b) = some j := by
  induction a generalizing j with
  | nil => simp [firstIdx_nil] at h
  | cons x xs ih =>
    by_cases hp : p x = true
    · rw [firstIdx_cons, if_pos hp] at h
      cases h
      simp [firstIdx_cons, hp]
    · have hpf : p x = false := by simpa using hp
      rw [firstIdx_cons, hpf] at h
      simp only [Bool.false_eq_true, if_false, Option.map_eq_some'] at h
      rcases h with ⟨k, hk, rfl⟩
      rw [List.cons_append, firstIdx_cons, hpf]
      simp only [Bool.false_eq_true, if_false, ih hk]
      rfl

theorem firstIdx_append_none {p : String → Bool} {a b : List String}
    (h : firstIdx p a = none) :
    firstIdx p (a ++ b) = (firstIdx p b).map (· + a.length) := by
  induction a with
  | nil =>
    simp only [List.nil_append, List.length_nil]
    cases firstIdx p b <;> simp
  | cons x xs ih =>
    have hpf : p x = false := by
      rcases firstIdx_eq_none_iff.1 h x (by simp) with hx
      exact hx
    have hxs : firstIdx p xs = none := by
      rw [firstIdx_eq_none_iff]
      intro y hy
      exact firstIdx_eq_none_iff.1 h y (by simp [hy])
    rw [List.cons_append, firstIdx_cons, hpf]
    simp only [Bool.false_eq_true, if_false, ih hxs]
    cases firstIdx p b with
    | none => rfl
    | some k =>
      simp only [Option.map_some', Option.map_map]
      show some (k + xs.length + 1) = some (k + (x :: xs).length)
      exact congrArg some (by simp only [List.length_cons]; omega)

theorem firstIdx_take_false {p : String → Bool} {l : List String} {j : Nat}
    (h : firstIdx p l = some j) : ∀ x ∈ l.take j, p x = false := by
  intro x hx
  rcases List.mem_take_iff_getElem.1 hx with ⟨i, hi, rfl⟩
  have hij : i < j := by omega
  have hb := firstIdx_eq_some_before h i hij
  have hil : i < l.length := by
    have := firstIdx_eq_some_lt h
    omega
  rwa [List.getD_eq_getElem l "" hil] at hb

/-! ### The blank-line back-up loops -/

theorem backUp_zero (lines : List String) : backUpOverBlanks lines 0 = 0 := rfl

theorem backUp_succ (lines : List String) (s : Nat) :
    backUpOverBlanks lines (s + 1)
      = if isBlank (lines.getD s "") = true then backUpOverBlanks lines s
        else s + 1 := rfl

theorem backUp_le (lines : List String) (s : Nat) : backUpOverBlanks lines s ≤ s := by
  induction s with
  | zero => simp [backUp_zero]
  | succ s ih =>
    rw [backUp_succ]
    by_cases hb : isBlank (lines.getD s "") = true
    · rw [if_pos hb]; omega
    · rw [if_neg hb]

theorem backUp_blank (lines : List String) (s : Nat) :
    ∀ i, backUpOverBlanks lines s ≤ i → i < s → isBlank (lines.getD i "") = true := by
  induction s with
  | zero => intro i _ hi; omega
  | succ s ih =>
    by_cases hb : isBlank (lines.getD s "") = true
    · rw [backUp_succ, if_pos hb]
      intro i h1 h2
      by_cases his : i = s
      · subst his; exact hb
      · exact ih i h1 (by omega)
    · rw [backUp_succ, if_neg hb]
      intro i h1 h2
      omega

theorem backUp_stop (lines : List String) (s : Nat) :
    backUpOverBlanks lines s = 0
      ∨ isBlank (lines.getD (backUpOverBlanks lines s - 1) "") = false := by
  induction s with
  | zero => exact Or.inl (backUp_zero lines)
  | succ s ih =>
    by_cases hb : isBlank (lines.getD s "") = true
    · rw [backUp_succ, if_pos hb]; exact ih
    · rw [backUp_succ, if_neg hb]
      exact Or.inr (by simpa using hb)

theorem backUp_eq (lines : List String) {s x : Nat} (h1 : x ≤ s)
    (h2 : ∀ i, x ≤ i → i < s → isBlank (lines.getD i "") = true)
    (h3 : x = 0 ∨ isBlank (lines.getD (x - 1) "") = false) :
    backUpOverBlanks lines s = x := by
  induction s with
  | zero => rw [backUp_zero]; omega
  | succ s ih =>
    by_cases hx : x = s + 1
    · subst hx
      have hnb : isBlank (lines.getD s "") = false := by
        rcases h3 with h0 | hnb
        · omega
        · simpa using hnb
      rw [backUp_succ, hnb]
      simp
    · have hxs : x ≤ s := by omega
      have hb : isBlank (lines.getD s "") = true := h2 s hxs (by omega)
      rw [backUp_succ, if_pos hb]
      exact ih hxs (fun i hi1 hi2 => h2 i hi1 (by omega))

theorem trim_zero (lines : List String) (s : Nat) :
    trimTrailingBlanks lines s 0 = 0 := rfl

theorem trim_succ (lines : List String) (s e : Nat) :
    trimTrailingBlanks lines s (e + 1)
      = if s ≤ e ∧ isBlank (lines.getD e "") = true
        then trimTrailingBlanks lines s e else e + 1 := rfl

theorem trim_le (lines : List String) (s e : Nat) :
    trimTrailingBlanks lines s e ≤ e := by
  induction e with
  | zero => simp [trim_zero]
  | succ e ih =>
    rw [trim_succ]
    by_cases hc : s ≤ e ∧ isBlank (lines.getD e "") = true
    · rw [if_pos hc]; omega
    · rw [if_neg hc]

theorem trim_blank (lines : List String) (s e : Nat) :
    ∀ i, trimTrailingBlanks lines s e ≤ i → i < e
      → isBlank (lines.getD i "") = true := by
  induction e with
  | zero => intro i _ hi; omega
  | succ e ih =>
    by_cases hc : s ≤ e ∧ isBlank (lines.getD e "") = true
    · rw [trim_succ, if_pos hc]
      intro i h1 h2
      by_cases hie : i = e
      · subst hie; exact hc.2
      · exact ih i h1 (by omega)
    · rw [trim_succ, if_neg hc]
      intro i h1 h2
      omega

theorem trim_gt (lines : List String) {s e : Nat} (hs : s < e)
    (hnb : isBlank (lines.getD s "") = false) :
    s < trimTrailingBlanks lines s e := by
  induction e with
  | zero => omega
  | succ e ih =>
    by_cases hc : s ≤ e ∧ isBlank (lines.getD e "") = true
    · rw [trim_succ, if_pos hc]
      have hse : s < e := by
        by_contra hcon
        have hseq : s = e := by omega
        subst hseq
        rw [hc.2] at hnb
        simp at hnb
      exact ih hse
    · rw [trim_succ, if_neg hc]
      omega

theorem trim_stop (lines : List String) {s : Nat} :
    ∀ e, s < trimTrailingBlanks lines s e
      → isBlank (lines.getD (trimTrailingBlanks lines s e - 1) "") = false := by
  intro e
  induction e with
  | zero => rw [trim_zero]; omega
  | succ e ih =>
    by_cases hc : s ≤ e ∧ isBlank (lines.getD e "") = true
    · rw [trim_succ, if_pos hc]
      exact ih
    · rw [trim_succ, if_neg hc]
      intro hlt
      have hse : s ≤ e := by omega
      have : ¬ isBlank (lines.getD e "") = true := fun hb => hc ⟨hse, hb⟩
      simpa using this

theorem trim_eq (lines : List String) {s x : Nat} (h1 : s < x)
    (h4 : isBlank (lines.getD (x - 1) "") = false) :
    ∀ e, x ≤ e → (∀ i, x ≤ i → i < e → isBlank (lines.getD i "") = true)
      → trimTrailingBlanks lines s e = x := by
  intro e
  induction e with
  | zero => intro h2 _; rw [trim_zero]; omega
  | succ e ih =>
    intro h2 h3
    by_cases hx : x = e + 1
    · subst hx
      have hnb : ¬ (s ≤ e ∧ isBlank (lines.getD e "") = true) := by
        rintro ⟨-, hb⟩
        simp only [Nat.add_sub_cancel] at h4
        rw [hb] at h4
        simp at h4
      rw [trim_succ, if_neg hnb]
    · have hxe : x ≤ e := by omega
      have hb : isBlank (lines.getD e "") = true := h3 e hxe (by omega)
      have hse : s ≤ e := by omega
      rw [trim_succ, if_pos ⟨hse, hb⟩]
      exact ih hxe (fun i hi1 hi2 => h3 i hi1 (by omega))

/-! ### Indexing helpers -/

theorem getD_append_lt {a b : List String} {i : Nat} {d : String}
    (h : i < a.length) : (a ++ b).getD i d = a.getD i d := by
  induction a generalizing i with
  | nil => simp at h
  | cons x xs ih =>
    cases i with
    | zero => rfl
    | succ i => exact ih (by simpa using h)

theorem getD_append_ge {a b : List String} {i : Nat} {d : String}
    (h : a.length ≤ i) : (a ++ b).getD i d = b.getD (i - a.length) d := by
  induction a generalizing i with
  | nil => simp
  | cons x xs ih =>
    cases i with
    | zero => simp at h
    | succ i =>
      have := ih (i := i) (by simpa using h)
      simpa using this

theorem getD_drop (l : List String) (n i : Nat) (d : String) :
    (l.drop n).getD i d = l.getD (n + i) d := by
  induction l generalizing n with
  | nil => simp
  | cons a as ih =>
    cases n with
    | zero => simp
    | succ n =>
      have := ih n
      simpa [Nat.succ_add] using this

theorem forall_mem_of_getD {P : String → Prop} {l : List String}
    (h : ∀ i, i < l.length → P (l.getD i "")) : ∀ x ∈ l, P x := by
  intro x hx
  rcases List.mem_iff_getElem.1 hx with ⟨i, hi, rfl⟩
  have := h i hi
  rwa [List.getD_eq_getElem l "" hi] at this

/-! ### Length of a list with its trailing blank lines removed -/

def nonTrailLen : List String → Nat
  | [] => 0
  | l :: ls =>
    if nonTrailLen ls = 0 then (if isBlank l then 0 else 1)
    else nonTrailLen ls + 1

theorem ntl_cons (l : String) (ls : List String) :
    nonTrailLen (l :: ls)
      = if nonTrailLen ls = 0 then (if isBlank l then 0 else 1)
        else nonTrailLen ls + 1 := rfl

theorem ntl_le (l : List String) : nonTrailLen l ≤ l.length := by
  induction l with
  | nil => simp [nonTrailLen]
  | cons a as ih =>
    rw [ntl_cons]
    by_cases h0 : nonTrailLen as = 0
    · rw [if_pos h0]
      by_cases hb : isBlank a = true
      · simp [hb]
      · rw [if_neg hb]
        simp
    · rw [if_neg h0]
      simp only [List.length_cons]
      omega

theorem ntl_blank (l : List String) :
    ∀ i, nonTrailLen l ≤ i → i < l.length → isBlank (l.getD i "") = true := by
  induction l with
  | nil => intro i _ hi; simp at hi
  | cons a as ih =>
    intro i h1 h2
    rw [ntl_cons] at h1
    by_cases h0 : nonTrailLen as = 0
    · rw [if_pos h0] at h1
      by_cases hb : isBlank a = true
      · cases i with
        | zero => exact hb
        | succ i => exact ih i (by omega) (by simpa using h2)
      · rw [if_neg hb] at h1
        cases i with
        | zero => omega
        | succ i => exact ih i (by omega) (by simpa using h2)
    · rw [if_neg h0] at h1
      cases i with
      | zero => omega
      | succ i => exact ih i (by omega) (by simpa using h2)

theorem ntl_stop (l : List String) :
    nonTrailLen l = 0
      ∨ isBlank (l.getD (nonTrailLen l - 1) "") = false := by
  induction l with
  | nil => exact Or.inl rfl
  | cons a as ih =>
    rw [ntl_cons]
    by_cases h0 : nonTrailLen as = 0
    · rw [if_pos h0]
      by_cases hb : isBlank a = true
      · exact Or.inl (by simp [hb])
      · refine Or.inr ?_
        rw [if_neg hb]
        simpa using hb
    · rw [if_neg h0]
      refine Or.inr ?_
      rcases ih with h0x | hnb
      · exact absurd h0x h0
      · have hx : nonTrailLen as + 1 - 1 = (nonTrailLen as - 1) + 1 := by omega
        rw [hx, List.getD_cons_succ]
        exact hnb

theorem ntl_pos {l0 : String} {ls : List String} (h : isBlank l0 = false) :
    1 ≤ nonTrailLen (l0 :: ls) := by
  rw [ntl_cons]
  by_cases h0 : nonTrailLen ls = 0
  · rw [if_pos h0, h]
    simp
  · rw [if_neg h0]
    omega

/-! ### Non-blank line projections -/

theorem nonblank_append (a b : List String) :
    nonblankLines (a ++ b) = nonblankLines a ++ nonblankLines b :=
  List.filter_append ..

theorem nonblank_all_blank {l : List String}
    (h : ∀ i, i < l.length → isBlank (l.getD i "") = true) :
    nonblankLines l = [] := by
  rw [nonblankLines, List.filter_eq_nil]
  intro a ha
  have := forall_mem_of_getD (P := fun x => isBlank x = true) h a ha
  simp [this]

theorem nonblank_take_ntl (l : List String) :
    nonblankLines (l.take (nonTrailLen l)) = nonblankLines l := by
  conv_rhs => rw [← List.take_append_drop (nonTrailLen l) l]
  rw [nonblank_append]
  have hdrop : nonblankLines (l.drop (nonTrailLen l)) = [] := by
    refine nonblank_all_blank ?_
    intro i hi
    rw [getD_drop]
    refine ntl_blank l _ (by omega) ?_
    rw [List.length_drop] at hi
    omega
  rw [hdrop, List.append_nil]

/-! ### The insertion scan computes the earliest anchor index -/

theorem insertionScanAux_cons (l : String) (ls : List String) (i acc : Nat) :
    insertionScanAux (l :: ls) i acc
      = insertionScanAux ls (i + 1) (if anchorLine l then min acc i else acc) := rfl

theorem insertionScanAux_spec (lines : List String) :
    ∀ i acc, insertionScanAux lines i acc
      = match firstIdx anchorLine lines with
        | some j => min acc (i + j)
        | none => acc := by
  induction lines with
  | nil => intro i acc; rfl
  | cons l ls ih =>
    intro i acc
    by_cases ha : anchorLine l = true
    · rw [insertionScanAux_cons, if_pos ha, ih, firstIdx_cons, if_pos ha]
      cases hf : firstIdx anchorLine ls with
      | none => simp
      | some j =>
        have h1 : min acc i ≤ i + 1 + j := le_trans (Nat.min_le_right acc i) (by omega)
        simp only [Nat.min_eq_left h1, Nat.add_zero]
    · have haf : anchorLine l = false := by simpa using ha
      rw [insertionScanAux_cons, haf, if_neg (by simp), ih, firstIdx_cons, haf]
      simp only [Bool.false_eq_true, if_false]
      cases hf : firstIdx anchorLine ls with
      | none => rfl
      | some j =>
        simp only [Option.map_some']
        have : i + 1 + j = i + (j + 1) := by omega
        rw [this]

theorem find_insertion_point_none {lines : List String}
    (h : firstIdx anchorLine lines = none) :
    find_insertion_point lines = lines.length := by
  rw [find_insertion_point, insertionScanAux_spec, h]
  simp

theorem find_insertion_point_some {lines : List String} {j : Nat}
    (h : firstIdx anchorLine lines = some j) :
    find_insertion_point lines = backUpOverBlanks lines j := by
  have hj : j < lines.length := firstIdx_eq_some_lt h
  rw [find_insertion_point, insertionScanAux_spec, h]
  simp only [Nat.zero_add]
  have hmin : min lines.length j = j := Nat.min_eq_right (Nat.le_of_lt hj)
  rw [hmin]
  have hne : (j == lines.length) = false := by
    simp only [beq_eq_false_iff_ne]
    omega
  rw [hne]
  simp

/-! ### Facts about blank lines, the heading, and anchors -/

theorem blank_not_L2 {l : String} (h : isBlank l = true) : isL2Heading l = false := by
  have hs : strip l = "" := by simpa [isBlank] using h
  rw [isL2Heading, hs]
  rfl

theorem blank_not_heading {l : String} (h : isBlank l = true) :
    (strip l == serenaHeading) = false := by
  have hs : strip l = "" := by simpa [isBlank] using h
  rw [hs]
  decide

theorem strip_serena : strip serenaHeading = serenaHeading := by decide

theorem serena_not_blank : isBlank serenaHeading = false := by decide

theorem contains_self_serena : containsStr serenaHeading serenaHeading = true := by decide

theorem serena_not_L2_tailness : isL2Heading "" = false := by decide

theorem data_eq_get2 {x a t1 t2 : List Char} {b : List Char}
    (h1 : x = a ++ t1) (h2 : x = b ++ t2) {i : Nat} {c d : Char}
    (ha : a.get? i = some c) (hb : b.get? i = some d) : c = d := by
  have hia : i < a.length := by
    by_contra hcon
    rw [List.get?_eq_none.2 (by omega)] at ha
    cases ha
  have hib : i < b.length := by
    by_contra hcon
    rw [List.get?_eq_none.2 (by omega)] at hb
    cases hb
  have e1 : x.get? i = some c := by rw [h1, List.get?_append hia]; exact ha
  have e2 : x.get? i = some d := by rw [h2, List.get?_append hib]; exact hb
  have := e1.symm.trans e2
  simpa using this

theorem anchor_isL2 {l : String} (h : anchorLine l = true) : isL2Heading l = true := by
  rw [anchorLine] at h
  rcases List.any_eq_true.1 h with ⟨sec, hsec, hsw⟩
  rcases startsWithStr_iff.1 hsw with ⟨t, ht⟩
  rw [isL2Heading, Bool.and_eq_true]
  have hsw2 : startsWithStr (strip l) "### " = false := by
    by_contra hcon
    have hcon2 : startsWithStr (strip l) "### " = true := by simpa using hcon
    rcases startsWithStr_iff.1 hcon2 with ⟨t2, ht2⟩
    fin_cases hsec <;>
      exact absurd
        (data_eq_get2 ht ht2 (i := 2) (c := ' ') (d := '#') (by decide) (by decide))
        (by decide)
  refine ⟨?_, by simp [hsw2]⟩
  refine startsWithStr_iff.2 ⟨sec.data.drop 3 ++ t, ?_⟩
  rw [ht, ← List.append_assoc]
  have hsec3 : sec.data = "## ".data ++ sec.data.drop 3 := by
    fin_cases hsec <;> decide
  rw [← hsec3]

/-! ### Structure of the rewritten document -/

/-- No line of `p` strips exactly to the target heading. -/
def noHeadingIn (p : List String) : Prop := ∀ l ∈ p, strip l ≠ serenaHeading

/-- Every line of `sfx` strictly before its first level-2 heading line (or
before its end when it has none) is blank. -/
def blankToFirstL2 (sfx : List String) : Prop :=
  ∀ i, i < (firstIdx isL2Heading sfx).getD sfx.length
    → isBlank (sfx.getD i "") = true

theorem isL2_false_of_not_sw {l : String}
    (h : startsWithStr (strip l) "## " = false) : isL2Heading l = false := by
  rw [isL2Heading, h]
  rfl

theorem no_serena_lines {c : List String}
    (h : already_has_serena_section c = false) :
    ∀ l ∈ c, containsStr l serenaHeading = false
      ∧ containsStr (lowerStr l) "serena" = false := by
  intro l hl
  cases hor : (containsStr l serenaHeading || containsStr (lowerStr l) "serena") with
  | true =>
    have hc : already_has_serena_section c = true := List.any_eq_true.2 ⟨l, hl, hor⟩
    rw [hc] at h
    cases h
  | false =>
    exact ⟨(Bool.or_eq_false_iff.1 hor).1, (Bool.or_eq_false_iff.1 hor).2⟩

theorem noHeading_of_not_already {c : List String}
    (h : already_has_serena_section c = false) : noHeadingIn c := by
  intro l hl hs
  have hc := (no_serena_lines h l hl).1
  rw [strip_eq_imp_contains hs] at hc
  cases hc

theorem noHeadingIn_take {c : List String} (h : noHeadingIn c) (n : Nat) :
    noHeadingIn (c.take n) :=
  fun l hl => h l (List.take_subset n c hl)

theorem update_replace_eq {T c : List String} {s e : Nat}
    (hah : already_has_serena_section c = true)
    (hb : find_serena_section_bounds c = some (s, e)) :
    update_agent_lines T c
      = some (c.take (backUpOverBlanks c s) ++ ["", ""] ++ T ++ ["", ""]
          ++ c.drop e) := by
  rw [update_agent_lines, if_pos hah, hb]

theorem update_insert_eq {T c : List String}
    (hah : already_has_serena_section c = false) :
    update_agent_lines T c
      = some (c.take (find_insertion_point c) ++ ["", ""] ++ T ++ ["", ""]
          ++ c.drop (find_insertion_point c)) := by
  rw [update_agent_lines, hah]
  simp

theorem update_none_eq {T c : List String}
    (hah : already_has_serena_section c = true)
    (hb : find_serena_section_bounds c = none) :
    update_agent_lines T c = none := by
  rw [update_agent_lines, if_pos hah, hb]

theorem bounds_inv {c : List String} {s e : Nat}
    (hb : find_serena_section_bounds c = some (s, e)) :
    firstIdx (fun l => strip l == serenaHeading) c = some s
      ∧ ∃ e0, e = trimTrailingBlanks c s e0 ∧ s < e0 ∧ e0 ≤ c.length
        ∧ ((∃ k, firstIdx isL2Heading (c.drop (s + 1)) = some k
              ∧ e0 = s + 1 + k ∧ e0 < c.length
              ∧ isL2Heading (c.getD e0 "") = true)
          ∨ (firstIdx isL2Heading (c.drop (s + 1)) = none ∧ e0 = c.length)) := by
  cases hf : firstIdx (fun l => strip l == serenaHeading) c with
  | none => rw [find_serena_section_bounds, hf] at hb; cases hb
  | some s0 =>
    have hs0 : s0 < c.length := firstIdx_eq_some_lt hf
    cases hk : firstIdx isL2Heading (c.drop (s0 + 1)) with
    | some k =>
      have hval : find_serena_section_bounds c
          = some (s0, trimTrailingBlanks c s0 (s0 + 1 + k)) := by
        simp only [find_serena_section_bounds, hf, hk]
      rw [hval] at hb
      simp only [Option.some.injEq, Prod.mk.injEq] at hb
      obtain ⟨rfl, rfl⟩ := hb
      have hklt : k < (c.drop (s0 + 1)).length := firstIdx_eq_some_lt hk
      rw [List.length_drop] at hklt
      have hL2 : isL2Heading (c.getD (s0 + 1 + k) "") = true := by
        have := firstIdx_eq_some_getD hk
        rwa [getD_drop] at this
      exact ⟨rfl, s0 + 1 + k, rfl, by omega, by omega,
        Or.inl ⟨k, hk, rfl, by omega, hL2⟩⟩
    | none =>
      have hval : find_serena_section_bounds c
          = some (s0, trimTrailingBlanks c s0 c.length) := by
        simp only [find_serena_section_bounds, hf, hk]
      rw [hval] at hb
      simp only [Option.some.injEq, Prod.mk.injEq] at hb
      obtain ⟨rfl, rfl⟩ := hb
      exact ⟨rfl, c.length, rfl, by omega, by omega, Or.inr ⟨hk, rfl⟩⟩

theorem replace_sfx_blank {c : List String} {s e : Nat}
    (hb : find_serena_section_bounds c = some (s, e)) :
    blankToFirstL2 (c.drop e) := by
  obtain ⟨hf, e0, he, hse0, he0len, hcases⟩ := bounds_inv hb
  have hblanks : ∀ i, e ≤ i → i < e0 → isBlank (c.getD i "") = true := by
    intro i h1 h2
    rw [he] at h1
    exact trim_blank c s e0 i h1 h2
  have hee0 : e ≤ e0 := by rw [he]; exact trim_le c s e0
  rcases hcases with ⟨k, hk, he0eq, he0lt, hL2⟩ | ⟨hk, he0eq⟩
  · have hfi : firstIdx isL2Heading (c.drop e) = some (e0 - e) := by
      refine firstIdx_eq_some_intro ?_ ?_ ?_
      · rw [List.length_drop]; omega
      · rw [getD_drop]
        have heq : e + (e0 - e) = e0 := by omega
        rw [heq]
        exact hL2
      · intro i hi
        rw [getD_drop]
        exact blank_not_L2 (hblanks (e + i) (by omega) (by omega))
    intro i hi
    rw [hfi] at hi
    simp only [Option.getD_some] at hi
    rw [getD_drop]
    exact hblanks (e + i) (by omega) (by omega)
  · have hfi : firstIdx isL2Heading (c.drop e) = none := by
      rw [firstIdx_eq_none_iff]
      refine forall_mem_of_getD ?_
      intro i hi
      rw [getD_drop]
      rw [List.length_drop] at hi
      exact blank_not_L2 (hblanks (e + i) (by omega) (by omega))
    intro i hi
    rw [hfi] at hi
    simp only [Option.getD_none, List.length_drop] at hi
    rw [getD_drop]
    exact hblanks (e + i) (by omega) (by omega)

theorem replace_prefix_noHeading {c : List String} {s e : Nat}
    (hb : find_serena_section_bounds c = some (s, e)) :
    noHeadingIn (c.take (backUpOverBlanks c s)) := by
  obtain ⟨hf, -⟩ := bounds_inv hb
  intro l hl hs
  have h1 : backUpOverBlanks c s ≤ s := backUp_le c s
  have h2 : c.take (backUpOverBlanks c s)
      = (c.take s).take (backUpOverBlanks c s) := by
    rw [List.take_take, Nat.min_eq_left h1]
  rw [h2] at hl
  have hmem : l ∈ c.take s := List.take_subset _ _ hl
  have := firstIdx_take_false hf l hmem
  rw [hs] at this
  simp at this

theorem insert_sfx_blank (c : List String) :
    blankToFirstL2 (c.drop (find_insertion_point c)) := by
  cases hfa : firstIdx anchorLine c with
  | none =>
    rw [find_insertion_point_none hfa]
    intro i hi
    simp [List.drop_length, firstIdx_nil] at hi
  | some j =>
    rw [find_insertion_point_some hfa]
    have hiple : backUpOverBlanks c j ≤ j := backUp_le c j
    have hj : j < c.length := firstIdx_eq_some_lt hfa
    have hL2 : isL2Heading (c.getD j "") = true :=
      anchor_isL2 (firstIdx_eq_some_getD hfa)
    have hblanks := backUp_blank c j
    have hfi : firstIdx isL2Heading (c.drop (backUpOverBlanks c j))
        = some (j - backUpOverBlanks c j) := by
      refine firstIdx_eq_some_intro ?_ ?_ ?_
      · rw [List.length_drop]; omega
      · rw [getD_drop]
        have heq : backUpOverBlanks c j + (j - backUpOverBlanks c j) = j := by
          omega
        rw [heq]
        exact hL2
      · intro i hi
        rw [getD_drop]
        exact blank_not_L2 (hblanks (backUpOverBlanks c j + i) (by omega)
          (by omega))
    intro i hi
    rw [hfi] at hi
    simp only [Option.getD_some] at hi
    rw [getD_drop]
    exact hblanks (backUpOverBlanks c j + i) (by omega) (by omega)

theorem update_some_shape {T c out : List String}
    (h : update_agent_lines T c = some out) :
    ∃ p sfx, out = p ++ ["", ""] ++ T ++ ["", ""] ++ sfx
      ∧ noHeadingIn p ∧ blankToFirstL2 sfx := by
  by_cases hah : already_has_serena_section c = true
  · cases hb : find_serena_section_bounds c with
    | none => rw [update_none_eq hah hb] at h; cases h
    | some se =>
      obtain ⟨s, e⟩ := se
      rw [update_replace_eq hah hb] at h
      simp only [Option.some.injEq] at h
      exact ⟨c.take (backUpOverBlanks c s), c.drop e, h.symm,
        replace_prefix_noHeading hb, replace_sfx_blank hb⟩
  · have hahf : already_has_serena_section c = false := by simpa using hah
    rw [update_insert_eq hahf] at h
    simp only [Option.some.injEq] at h
    exact ⟨c.take (find_insertion_point c), c.drop (find_insertion_point c),
      h.symm, noHeadingIn_take (noHeading_of_not_already hahf) _,
      insert_sfx_blank c⟩

theorem nonblank_blank2 : nonblankLines ["", ""] = [] := by decide

theorem nonblank_five (p T sfx : List String) :
    nonblankLines (p ++ ["", ""] ++ T ++ ["", ""] ++ sfx)
      = nonblankLines p ++ nonblankLines T ++ nonblankLines sfx := by
  rw [nonblank_append, nonblank_append, nonblank_append, nonblank_append,
    nonblank_blank2]
  simp

/-! ### Indexing into a spliced document `p ++ blanks ++ T ++ blanks ++ sfx` -/

theorem blank2_getD (k : Nat) : (["", ""] : List String).getD k "" = "" := by
  match k with
  | 0 => rfl
  | 1 => rfl
  | n + 2 => simp [List.getD]

theorem blank_empty : isBlank "" = true := by decide

theorem len5 (p T sfx : List String) :
    (p ++ ["", ""] ++ T ++ ["", ""] ++ sfx).length
      = p.length + 2 + T.length + 2 + sfx.length := by
  simp only [List.length_append, List.length_cons, List.length_nil]

theorem getD5_p (p T sfx : List String) {i : Nat} (h : i < p.length) :
    (p ++ ["", ""] ++ T ++ ["", ""] ++ sfx).getD i "" = p.getD i "" := by
  rw [getD_append_lt (by simp only [List.length_append, List.length_cons, List.length_nil]; omega), getD_append_lt (by simp only [List.length_append, List.length_cons, List.length_nil]; omega),
      getD_append_lt (by simp only [List.length_append, List.length_cons, List.length_nil]; omega), getD_append_lt h]

theorem getD5_b1 (p T sfx : List String) {i : Nat} (h1 : p.length ≤ i)
    (h2 : i < p.length + 2) :
    (p ++ ["", ""] ++ T ++ ["", ""] ++ sfx).getD i "" = "" := by
  rw [getD_append_lt (by simp only [List.length_append, List.length_cons, List.length_nil]; omega), getD_append_lt (by simp only [List.length_append, List.length_cons, List.length_nil]; omega),
      getD_append_lt (by simp only [List.length_append, List.length_cons, List.length_nil]; omega), getD_append_ge h1, blank2_getD]

theorem getD5_T (p T sfx : List String) {j : Nat} (h : j < T.length) :
    (p ++ ["", ""] ++ T ++ ["", ""] ++ sfx).getD (p.length + 2 + j) ""
      = T.getD j "" := by
  rw [getD_append_lt (by simp only [List.length_append, List.length_cons, List.length_nil]; omega), getD_append_lt (by simp only [List.length_append, List.length_cons, List.length_nil]; omega),
      getD_append_ge (by simp only [List.length_append, List.length_cons, List.length_nil]; omega)]
  congr 1
  simp only [List.length_append, List.length_cons, List.length_nil]
  omega

theorem getD5_b2 (p T sfx : List String) {i : Nat}
    (h1 : p.length + 2 + T.length ≤ i) (h2 : i < p.length + 2 + T.length + 2) :
    (p ++ ["", ""] ++ T ++ ["", ""] ++ sfx).getD i "" = "" := by
  rw [getD_append_lt (by simp only [List.length_append, List.length_cons, List.length_nil]; omega), getD_append_ge (by simp only [List.length_append, List.length_cons, List.length_nil]; omega)]
  rw [blank2_getD]

theorem getD5_sfx (p T sfx : List String) (j : Nat) :
    (p ++ ["", ""] ++ T ++ ["", ""] ++ sfx).getD (p.length + 2 + T.length + 2 + j) ""
      = sfx.getD j "" := by
  rw [getD_append_ge (by simp only [List.length_append, List.length_cons, List.length_nil]; omega)]
  congr 1
  simp only [List.length_append, List.length_cons, List.length_nil]
  omega

theorem bounds_some_k {c : List String} {s k : Nat}
    (hf : firstIdx (fun l => strip l == serenaHeading) c = some s)
    (hk : firstIdx isL2Heading (c.drop (s + 1)) = some k) :
    find_serena_section_bounds c
      = some (s, trimTrailingBlanks c s (s + 1 + k)) := by
  simp only [find_serena_section_bounds, hf, hk]

theorem bounds_none_k {c : List String} {s : Nat}
    (hf : firstIdx (fun l => strip l == serenaHeading) c = some s)
    (hk : firstIdx isL2Heading (c.drop (s + 1)) = none) :
    find_serena_section_bounds c
      = some (s, trimTrailingBlanks c s c.length) := by
  simp only [find_serena_section_bounds, hf, hk]

/-- Applying the rewrite to a document that is already in spliced shape keeps
its non-blank lines unchanged: the second pass replaces the template region
(and the surrounding blanks) with the template again. -/
theorem second_pass (T p sfx : List String)
    (hT0 : T.head? = some serenaHeading)
    (hTt : ∀ l ∈ T.tail, startsWithStr (strip l) "## " = false)
    (hp : noHeadingIn p) (hsfx : blankToFirstL2 sfx) :
    nonblankLines (transformLines T (p ++ ["", ""] ++ T ++ ["", ""] ++ sfx))
      = nonblankLines p ++ nonblankLines T ++ nonblankLines sfx := by
  cases T with
  | nil => cases hT0
  | cons t0 Tt =>
  simp only [List.head?_cons, Option.some.injEq] at hT0
  subst hT0
  simp only [List.tail_cons] at hTt
  have hu1 : 1 ≤ nonTrailLen (serenaHeading :: Tt) := ntl_pos serena_not_blank
  have huT : nonTrailLen (serenaHeading :: Tt) ≤ Tt.length + 1 := by
    have := ntl_le (serenaHeading :: Tt)
    simpa using this
  set u := nonTrailLen (serenaHeading :: Tt) with hu
  set Kv := (firstIdx isL2Heading sfx).getD sfx.length with hKv
  set D := p ++ ["", ""] ++ (serenaHeading :: Tt) ++ ["", ""] ++ sfx with hD
  have hKle : Kv ≤ sfx.length := by
    rw [hKv]
    cases hks : firstIdx isL2Heading sfx with
    | none => simp
    | some k =>
      simp only [Option.getD_some]
      exact Nat.le_of_lt (firstIdx_eq_some_lt hks)
  have hDlen : D.length = p.length + 2 + (Tt.length + 1) + 2 + sfx.length := by
    rw [hD]
    have := len5 p (serenaHeading :: Tt) sfx
    simpa using this
  -- mode detection: the heading line itself is in the document
  have hmem : serenaHeading ∈ D := by
    rw [hD]
    simp
  have hah : already_has_serena_section D = true :=
    List.any_eq_true.2 ⟨serenaHeading, hmem, by simp [contains_self_serena]⟩
  -- the heading scan finds the template head
  have hpnone : firstIdx (fun l => strip l == serenaHeading) p = none :=
    firstIdx_eq_none_iff.2 (fun x hx => beq_eq_false_iff_ne.2 (hp x hx))
  have hDr : D = p ++ ("" :: "" :: serenaHeading :: (Tt ++ ("" :: "" :: sfx))) := by
    rw [hD]
    simp
  have hfrest : firstIdx (fun l => strip l == serenaHeading)
      ("" :: "" :: serenaHeading :: (Tt ++ ("" :: "" :: sfx))) = some 2 := by
    rw [firstIdx_cons, if_neg (by decide), firstIdx_cons, if_neg (by decide),
      firstIdx_cons, if_pos (by simp [strip_serena])]
    rfl
  have hfD : firstIdx (fun l => strip l == serenaHeading) D
      = some (p.length + 2) := by
    rw [hDr, firstIdx_append_none hpnone, hfrest]
    simp only [Option.map_some']
    congr 1
    omega
  -- the level-2 scan beyond the heading
  have hdrop3 : D.drop (p.length + 2 + 1) = Tt ++ ("" :: "" :: sfx) := by
    have hsplit : D = (p ++ ["", "", serenaHeading]) ++ (Tt ++ ("" :: "" :: sfx)) := by
      rw [hD]
      simp
    have hlen : (p ++ ["", "", serenaHeading]).length = p.length + 2 + 1 := by
      simp
    rw [hsplit, ← hlen, List.drop_left]
  have hTtnone : firstIdx isL2Heading Tt = none :=
    firstIdx_eq_none_iff.2 (fun x hx => isL2_false_of_not_sw (hTt x hx))
  have hfdrop : firstIdx isL2Heading (Tt ++ ("" :: "" :: sfx))
      = (firstIdx isL2Heading sfx).map (fun k => k + 1 + 1 + Tt.length) := by
    rw [firstIdx_append_none hTtnone]
    rw [firstIdx_cons, if_neg (by decide), firstIdx_cons, if_neg (by decide)]
    cases firstIdx isL2Heading sfx with
    | none => rfl
    | some k => rfl
  -- blanks between the non-blank core of the template and the boundary
  have hstop : isBlank (D.getD (p.length + 2 + u - 1) "") = false := by
    have hidx : p.length + 2 + u - 1 = p.length + 2 + (u - 1) := by omega
    have hT := getD5_T p (serenaHeading :: Tt) sfx
      (j := u - 1) (by simp only [List.length_cons]; omega)
    rw [hD, hidx, hT]
    rcases ntl_stop (serenaHeading :: Tt) with h0 | hnb
    · rw [← hu] at h0; omega
    · rw [← hu] at hnb; exact hnb
  have hblankrange : ∀ i, p.length + 2 + u ≤ i
      → i < p.length + 2 + (Tt.length + 1) + 2 + Kv
      → isBlank (D.getD i "") = true := by
    intro i hi1 hi2
    by_cases hc1 : i < p.length + 2 + (Tt.length + 1)
    · have hj : i = p.length + 2 + (i - (p.length + 2)) := by omega
      have hT := getD5_T p (serenaHeading :: Tt) sfx
        (j := i - (p.length + 2)) (by simp only [List.length_cons]; omega)
      rw [hD, hj, hT]
      refine ntl_blank (serenaHeading :: Tt) _ (by rw [← hu]; omega) ?_
      simp only [List.length_cons]
      omega
    · by_cases hc2 : i < p.length + 2 + (Tt.length + 1) + 2
      · have hb2 := getD5_b2 p (serenaHeading :: Tt) sfx
          (i := i) (by simp only [List.length_cons]; omega)
          (by simp only [List.length_cons]; omega)
        rw [hD, hb2]
        exact blank_empty
      · have hj : i = p.length + 2 + (Tt.length + 1) + 2
            + (i - (p.length + 2 + (Tt.length + 1) + 2)) := by omega
        have hs := getD5_sfx p (serenaHeading :: Tt) sfx
          (i - (p.length + 2 + (Tt.length + 1) + 2))
        simp only [List.length_cons] at hs
        rw [hD, hj, hs]
        exact hsfx _ (by rw [← hKv]; omega)
  have htrim : ∀ e, p.length + 2 + u ≤ e
      → e ≤ p.length + 2 + (Tt.length + 1) + 2 + Kv
      → trimTrailingBlanks D (p.length + 2) e = p.length + 2 + u := by
    intro e h1 h2
    exact trim_eq D (by omega) hstop e h1
      (fun i hi1 hi2 => hblankrange i hi1 (by omega))
  -- the section bounds of the spliced document
  have hbounds : find_serena_section_bounds D
      = some (p.length + 2, p.length + 2 + u) := by
    cases hK2 : firstIdx isL2Heading sfx with
    | some k =>
      have hKval : Kv = k := by rw [hKv, hK2]; rfl
      have hkd : firstIdx isL2Heading (D.drop (p.length + 2 + 1))
          = some (k + 1 + 1 + Tt.length) := by
        rw [hdrop3, hfdrop, hK2]
        rfl
      have hb := bounds_some_k hfD hkd
      have htr := htrim (p.length + 2 + 1 + (k + 1 + 1 + Tt.length))
        (by omega) (by rw [hKval]; omega)
      rw [htr] at hb
      exact hb
    | none =>
      have hKval : Kv = sfx.length := by rw [hKv, hK2]; rfl
      have hkd : firstIdx isL2Heading (D.drop (p.length + 2 + 1)) = none := by
        rw [hdrop3, hfdrop, hK2]
        rfl
      have hb := bounds_none_k hfD hkd
      have htr := htrim D.length (by rw [hDlen]; omega)
        (by rw [hDlen, hKval])
      rw [htr] at hb
      exact hb
  -- the back-up over blanks lands at the non-blank end of the old prefix
  have hback : backUpOverBlanks D (p.length + 2) = nonTrailLen p := by
    refine backUp_eq D (by have := ntl_le p; omega) ?_ ?_
    · intro i hi1 hi2
      by_cases hip : i < p.length
      · have hP := getD5_p p (serenaHeading :: Tt) sfx (i := i) hip
        rw [hD, hP]
        exact ntl_blank p i hi1 hip
      · have hb1 := getD5_b1 p (serenaHeading :: Tt) sfx
          (i := i) (by omega) (by omega)
        rw [hD, hb1]
        exact blank_empty
    · rcases ntl_stop p with h0 | hnb
      · exact Or.inl h0
      · refine Or.inr ?_
        have hlt : nonTrailLen p - 1 < p.length := by
          by_contra hcon
          rw [List.getD_eq_default _ _ (by omega)] at hnb
          rw [blank_empty] at hnb
          cases hnb
        have hP := getD5_p p (serenaHeading :: Tt) sfx (i := nonTrailLen p - 1) hlt
        rw [hD, hP]
        exact hnb
  -- the spliced pieces
  have htake : D.take (nonTrailLen p) = p.take (nonTrailLen p) := by
    rw [hDr, List.take_append_eq_append_take,
      show nonTrailLen p - p.length = 0 from by have := ntl_le p; omega,
      List.take_zero, List.append_nil]
  have hdrop2 : D.drop (p.length + 2 + u)
      = (serenaHeading :: Tt).drop u ++ ("" :: "" :: sfx) := by
    have hsplit : D = ((p ++ ["", ""]) ++ (serenaHeading :: Tt).take u)
        ++ ((serenaHeading :: Tt).drop u ++ ("" :: "" :: sfx)) := by
      rw [hD]
      conv_lhs => rw [← List.take_append_drop u (serenaHeading :: Tt)]
      simp only [List.append_assoc, List.cons_append, List.nil_append]
    have hlen : ((p ++ ["", ""]) ++ (serenaHeading :: Tt).take u).length
        = p.length + 2 + u := by
      simp only [List.length_append, List.length_take, List.length_cons,
        List.length_nil]
      have : min u (Tt.length + 1) = u := Nat.min_eq_left huT
      omega
    rw [hsplit, ← hlen, List.drop_left]
  have hTdropnb : nonblankLines ((serenaHeading :: Tt).drop u) = [] := by
    refine nonblank_all_blank ?_
    intro i hi
    rw [getD_drop]
    rw [List.length_drop] at hi
    refine ntl_blank (serenaHeading :: Tt) _ (by rw [← hu]; omega) ?_
    simp only [List.length_cons] at hi ⊢
    omega
  -- assemble
  have hupd := update_replace_eq (T := serenaHeading :: Tt) hah hbounds
  have hval : transformLines (serenaHeading :: Tt) D
      = D.take (backUpOverBlanks D (p.length + 2)) ++ ["", ""]
        ++ (serenaHeading :: Tt) ++ ["", ""] ++ D.drop (p.length + 2 + u) := by
    rw [transformLines, hupd]
    rfl
  rw [hval, hback, htake, hdrop2]
  rw [nonblank_append, nonblank_append, nonblank_append, nonblank_append,
    nonblank_append, nonblank_blank2, hTdropnb, nonblank_take_ntl]
  have hbs : nonblankLines ("" :: "" :: sfx) = nonblankLines sfx := by
    rw [nonblankLines, nonblankLines, List.filter_cons_of_neg, List.filter_cons_of_neg]
    · simp [blank_empty]
    · simp [blank_empty]
  rw [hbs]
  simp

theorem getD_mem {l : List String} {i : Nat} (h : i < l.length) :
    l.getD i "" ∈ l := by
  rw [List.getD_eq_getElem l "" h]
  exact List.getElem_mem h

/-! ### Claims -/

/-- C1, counterexample: the transformation is not idempotent.  On the
one-line document `"## Serena MCP Integration"`, the first pass produces the
template framed by two blank lines on each side; the second pass trims the
trailing blanks out of the replaced range but leaves them in the suffix, so
two further blank lines accumulate at the end. -/
theorem claim_C1_counterexample :
    transformLines ["## Serena MCP Integration", "body"]
        (transformLines ["## Serena MCP Integration", "body"]
          ["## Serena MCP Integration"])
      ≠ transformLines ["## Serena MCP Integration", "body"]
          ["## Serena MCP Integration"] := by decide

/-- C1, amended: the transformation is idempotent only up to blank lines.
When the template starts with the exact target heading line and contains no
further level-2 heading line, a second application of the per-document
rewrite changes nothing except blank-line spacing: the sequence of non-blank
lines of `transform (transform c)` equals that of `transform c`, for every
document `c`.  (Exact idempotence fails: blank lines accumulate before the
end boundary, see the counterexample.) -/
theorem claim_C1_idempotent_on_nonblank_lines (T c : List String)
    (hT0 : T.head? = some serenaHeading)
    (hTt : ∀ l ∈ T.tail, startsWithStr (strip l) "## " = false) :
    nonblankLines (transformLines T (transformLines T c))
      = nonblankLines (transformLines T c) := by
  cases hu : update_agent_lines T c with
  | none =>
    have h1 : transformLines T c = c := by rw [transformLines, hu]; rfl
    rw [h1, h1]
  | some out =>
    have h1 : transformLines T c = out := by rw [transformLines, hu]; rfl
    rw [h1]
    obtain ⟨p, sfx, rfl, hpn, hsf⟩ := update_some_shape hu
    rw [second_pass T p sfx hT0 hTt hpn hsf, nonblank_five]

theorem claim_C1_witness :
    (["## Serena MCP Integration", "x"] : List String).head?
        = some serenaHeading
      ∧ nonblankLines (transformLines ["## Serena MCP Integration", "x"]
            (transformLines ["## Serena MCP Integration", "x"] ["abc"]))
        = nonblankLines
            (transformLines ["## Serena MCP Integration", "x"] ["abc"]) :=
  ⟨by decide,
   claim_C1_idempotent_on_nonblank_lines ["## Serena MCP Integration", "x"]
     ["abc"] (by decide) (by decide)⟩

/-- C10: the per-document rewrite is deterministic and independent of any
other state: the result at any position of the batch depends only on the
document content there and the template, not on the other documents or the
position in the run. -/
theorem claim_C10_deterministic (T : List String)
    (docs1 docs2 : List (List String)) (i j : Nat)
    (h : docs1.get? i = docs2.get? j) :
    (processDocs T docs1).get? i = (processDocs T docs2).get? j := by
  rw [processDocs, processDocs, List.get?_map, List.get?_map, h]

theorem claim_C10_witness :
    (processDocs ["T"] [["a"]]).get? 0
      = (processDocs ["T"] [["b"], ["a"]]).get? 1 :=
  claim_C10_deterministic ["T"] [["a"]] [["b"], ["a"]] 0 1 (by decide)

/-- C7: when the bounds lookup fails for one document, that document's
content is left unchanged (the entry carries `false`, the failure message,
and the original content), and every other document of the batch is still
processed exactly as it would be alone; the batch length is preserved. -/
theorem claim_C7_failure_isolated (T : List String) (docs : List (List String))
    (i : Nat) (c : List String) (hdoc : docs.get? i = some c)
    (hfail : update_agent_lines T c = none) :
    (processDocs T docs).get? i
        = some (false, "Could not find Serena section bounds", c)
      ∧ (processDocs T docs).length = docs.length
      ∧ (∀ j d, docs.get? j = some d
          → (processDocs T docs).get? j = some (update_agent_file T d)) := by
  refine ⟨?_, by simp [processDocs], ?_⟩
  · rw [processDocs, List.get?_map, hdoc]
    simp [update_agent_file, hfail]
  · intro j d hj
    rw [processDocs, List.get?_map, hj]
    rfl

theorem claim_C7_witness :
    (processDocs ["T"] [["talks about serena"], ["x"]]).get? 0
        = some (false, "Could not find Serena section bounds",
            ["talks about serena"])
      ∧ (processDocs ["T"] [["talks about serena"], ["x"]]).length = 2 := by
  have h := claim_C7_failure_isolated ["T"] [["talks about serena"], ["x"]] 0
    ["talks about serena"] (by decide) (by decide)
  exact ⟨h.1, h.2.1⟩

/-- C5: insert mode is chosen exactly when the target section is absent,
where absence means no occurrence of the exact heading string in any line
and no case-insensitive occurrence of `"serena"` in any line; otherwise the
replace path is taken (which either fails or splices at the found bounds). -/
theorem claim_C5_mode_selection (T c : List String) :
    (already_has_serena_section c = false
        ↔ (∀ l ∈ c, ¬ ∃ t u, l.data = t ++ serenaHeading.data ++ u)
          ∧ (∀ l ∈ c, ¬ ∃ t u, (lowerStr l).data = t ++ "serena".data ++ u))
      ∧ (already_has_serena_section c = false
          → update_agent_lines T c
            = some (c.take (find_insertion_point c) ++ ["", ""] ++ T ++ ["", ""]
                ++ c.drop (find_insertion_point c)))
      ∧ (already_has_serena_section c = true
          → update_agent_lines T c = none
            ∨ ∃ s e, find_serena_section_bounds c = some (s, e)
              ∧ update_agent_lines T c
                = some (c.take (backUpOverBlanks c s) ++ ["", ""] ++ T
                    ++ ["", ""] ++ c.drop e)) := by
  refine ⟨⟨?_, ?_⟩, fun h => update_insert_eq h, fun h => ?_⟩
  · intro h
    constructor
    · rintro l hl ⟨t, u, hd⟩
      have hc := (no_serena_lines h l hl).1
      have : containsStr l serenaHeading = true := containsStr_iff.2 ⟨t, u, hd⟩
      rw [this] at hc
      cases hc
    · rintro l hl ⟨t, u, hd⟩
      have hc := (no_serena_lines h l hl).2
      have : containsStr (lowerStr l) "serena" = true :=
        containsStr_iff.2 ⟨t, u, hd⟩
      rw [this] at hc
      cases hc
  · rintro ⟨h1, h2⟩
    by_contra hcon
    have htrue : already_has_serena_section c = true := by simpa using hcon
    rcases List.any_eq_true.1 htrue with ⟨l, hl, hp⟩
    rw [Bool.or_eq_true] at hp
    rcases hp with hc | hc
    · exact h1 l hl (containsStr_iff.1 hc)
    · exact h2 l hl (containsStr_iff.1 hc)
  · cases hb : find_serena_section_bounds c with
    | none => exact Or.inl (update_none_eq h hb)
    | some se =>
      obtain ⟨s, e⟩ := se
      exact Or.inr ⟨s, e, rfl, update_replace_eq h hb⟩

theorem claim_C5_witness :
    already_has_serena_section ["x"] = false
      ∧ update_agent_lines ["T"] ["x"]
        = some ((["x"] : List String).take (find_insertion_point ["x"])
            ++ ["", ""] ++ ["T"] ++ ["", ""]
            ++ (["x"] : List String).drop (find_insertion_point ["x"])) :=
  ⟨by decide, (claim_C5_mode_selection ["T"] ["x"]).2.1 (by decide)⟩

/-- C2, counterexample: the separation after the template is not always
exactly two blank lines.  The blank lines that the bounds trimming removed
from the replaced range stay in the suffix, so in this document four blank
lines separate the template from `"## Next"`. -/
theorem claim_C2_counterexample :
    update_agent_lines ["T"] ["## Serena MCP Integration", "b", "", "", "## Next"]
        = some ["", "", "T", "", "", "", "", "## Next"]
      ∧ (["", "", "T", "", "", "", "", "## Next"] : List String)
        ≠ ["", "", "T", "", "", "## Next"] := by decide

/-- C2, amended: in replace mode the output is the untouched prefix, two
blank lines, the template, two blank lines, and the untouched suffix from
the end boundary.  The separation before the template is exactly two blank
lines (the prefix is cut at a non-blank line, or at the document start,
because the pre-existing blanks there are folded into the replaced range);
the separation after the template is at least two blank lines, but blank
lines trimmed off the end of the replaced range remain in the suffix and can
make it larger. -/
theorem claim_C2_blank_framing (T c : List String) (s e : Nat)
    (hah : already_has_serena_section c = true)
    (hb : find_serena_section_bounds c = some (s, e)) :
    ∃ s2, s2 ≤ s
      ∧ update_agent_lines T c
        = some (c.take s2 ++ ["", ""] ++ T ++ ["", ""] ++ c.drop e)
      ∧ (∀ i, s2 ≤ i → i < s → isBlank (c.getD i "") = true)
      ∧ (s2 = 0 ∨ isBlank (c.getD (s2 - 1) "") = false) :=
  ⟨backUpOverBlanks c s, backUp_le c s, update_replace_eq hah hb,
    backUp_blank c s, backUp_stop c s⟩

theorem claim_C2_witness :
    ∃ s2, s2 ≤ 0
      ∧ update_agent_lines ["T"] ["## Serena MCP Integration", "b", "", "", "## Next"]
        = some ((["## Serena MCP Integration", "b", "", "", "## Next"] : List String).take s2
            ++ ["", ""] ++ ["T"] ++ ["", ""]
            ++ (["## Serena MCP Integration", "b", "", "", "## Next"] : List String).drop 2) := by
  obtain ⟨s2, h1, h2, -, -⟩ := claim_C2_blank_framing ["T"]
    ["## Serena MCP Integration", "b", "", "", "## Next"] 0 2
    (by decide) (by decide)
  exact ⟨s2, h1, h2⟩

/-- C3, counterexample: the template is framed by two blank lines on each
side, not one, so the claimed "exactly one blank line above and below" fails
already on the simplest insertion. -/
theorem claim_C3_counterexample :
    update_agent_lines ["## Serena MCP Integration"] ["x"]
        = some ["x", "", "", "## Serena MCP Integration", "", ""]
      ∧ (["x", "", "", "## Serena MCP Integration", "", ""] : List String)
        ≠ ["x", "", "## Serena MCP Integration", ""] := by decide

/-- C3, amended: after every successful rewrite the document consists of a
prefix, two (not one) blank lines, the template verbatim, two blank lines,
and a suffix; no prefix line strips to the target heading, so every heading
occurrence of the output lies in the template or in the kept suffix (in
particular, when the template contains the heading line once and the kept
suffix not at all, the output contains it exactly once).  Pre-existing extra
blank lines are folded into the replaced range only on the side above;
on the side below, blanks ahead of the end boundary survive in the suffix. -/
theorem claim_C3_exactly_template_two_blanks (T c out : List String)
    (h : update_agent_lines T c = some out) :
    ∃ p sfx, out = p ++ ["", ""] ++ T ++ ["", ""] ++ sfx
      ∧ (∀ l ∈ p, strip l ≠ serenaHeading)
      ∧ out.countP (fun x => strip x == serenaHeading)
          = T.countP (fun x => strip x == serenaHeading)
            + sfx.countP (fun x => strip x == serenaHeading) := by
  obtain ⟨p, sfx, rfl, hpn, hsf⟩ := update_some_shape h
  refine ⟨p, sfx, rfl, hpn, ?_⟩
  rw [List.countP_append, List.countP_append, List.countP_append,
    List.countP_append]
  have hzero : p.countP (fun x => strip x == serenaHeading) = 0 := by
    rw [List.countP_eq_zero]
    intro a ha
    simp [hpn a ha]
  have hb2 : (["", ""] : List String).countP (fun x => strip x == serenaHeading)
      = 0 := by decide
  rw [hzero, hb2]
  omega

theorem claim_C3_witness :
    ∃ p sfx, (["x", "", "", "## Serena MCP Integration", "", ""] : List String)
        = p ++ ["", ""] ++ ["## Serena MCP Integration"] ++ ["", ""] ++ sfx
      ∧ (∀ l ∈ p, strip l ≠ serenaHeading) := by
  obtain ⟨p, sfx, h1, h2, -⟩ := claim_C3_exactly_template_two_blanks
    ["## Serena MCP Integration"] ["x"]
    ["x", "", "", "## Serena MCP Integration", "", ""] (by decide)
  exact ⟨p, sfx, h1, h2⟩

/-- C4, counterexample: a higher-level heading does not terminate the
replaced range.  The claim predicts the exclusive end boundary 2 (the line
`"# Top"`, a heading of higher level), but the scan only stops at lines whose
stripped text starts with `"## "`, so the section runs to the end of the
document and the bounds are `(0, 3)`. -/
theorem claim_C4_counterexample :
    find_serena_section_bounds ["## Serena MCP Integration", "x", "# Top"]
        = some (0, 3)
      ∧ find_serena_section_bounds ["## Serena MCP Integration", "x", "# Top"]
        ≠ some (0, 2) := by decide

/-- C4, amended: in replace mode the exclusive end boundary is derived from
the first subsequent line that is exactly a level-2 heading (stripped text
starting with `"## "` and not `"### "`) — higher-level `"# "` headings do
not terminate the section — or from end-of-document when there is none,
with the blank lines immediately preceding that boundary excluded, so the
boundary sits just after the last non-blank line of the section. -/
theorem claim_C4_replace_end_boundary (c : List String) (j : Nat)
    (hj : j < c.length) (hhead : strip (c.getD j "") = serenaHeading)
    (hfirst : ∀ i, i < j → strip (c.getD i "") ≠ serenaHeading) :
    ∃ e b, find_serena_section_bounds c = some (j, e)
      ∧ j < e ∧ e ≤ b
      ∧ (∀ i, e ≤ i → i < b → isBlank (c.getD i "") = true)
      ∧ isBlank (c.getD (e - 1) "") = false
      ∧ ((b < c.length ∧ isL2Heading (c.getD b "") = true
            ∧ (∀ i, j < i → i < b → isL2Heading (c.getD i "") = false))
        ∨ (b = c.length
            ∧ (∀ i, j < i → i < c.length → isL2Heading (c.getD i "") = false))) := by
  have hf : firstIdx (fun l => strip l == serenaHeading) c = some j :=
    firstIdx_eq_some_intro hj
      (by show (strip (c.getD j "") == serenaHeading) = true
          rw [hhead]
          exact beq_self_eq_true serenaHeading)
      (fun i hi => beq_eq_false_iff_ne.2 (hfirst i hi))
  have hnbj : isBlank (c.getD j "") = false := by
    rw [isBlank, hhead]
    decide
  cases hk : firstIdx isL2Heading (c.drop (j + 1)) with
  | some k =>
    have hb := bounds_some_k hf hk
    have hklt : k < c.length - (j + 1) := by
      have := firstIdx_eq_some_lt hk
      rwa [List.length_drop] at this
    have hgt : j < trimTrailingBlanks c j (j + 1 + k) :=
      trim_gt c (by omega) hnbj
    refine ⟨_, j + 1 + k, hb, hgt, trim_le c j (j + 1 + k),
      trim_blank c j (j + 1 + k), trim_stop c _ hgt,
      Or.inl ⟨by omega, ?_, ?_⟩⟩
    · have := firstIdx_eq_some_getD hk
      rwa [getD_drop] at this
    · intro i hi1 hi2
      have hbf := firstIdx_eq_some_before hk (i - (j + 1)) (by omega)
      rw [getD_drop] at hbf
      have heq : j + 1 + (i - (j + 1)) = i := by omega
      rwa [heq] at hbf
  | none =>
    have hb := bounds_none_k hf hk
    have hgt : j < trimTrailingBlanks c j c.length :=
      trim_gt c (by omega) hnbj
    refine ⟨_, c.length, hb, hgt, trim_le c j c.length,
      trim_blank c j c.length, trim_stop c _ hgt, Or.inr ⟨rfl, ?_⟩⟩
    intro i hi1 hi2
    have hmem : (c.drop (j + 1)).getD (i - (j + 1)) "" ∈ c.drop (j + 1) :=
      getD_mem (by rw [List.length_drop]; omega)
    have hfe := firstIdx_eq_none_iff.1 hk _ hmem
    rw [getD_drop] at hfe
    have heq : j + 1 + (i - (j + 1)) = i := by omega
    rwa [heq] at hfe

theorem claim_C4_witness :
    ∃ e b, find_serena_section_bounds
          ["## Serena MCP Integration", "x", "", "## Next", "y"] = some (0, e)
        ∧ 0 < e ∧ e ≤ b
        ∧ isBlank ((["## Serena MCP Integration", "x", "", "## Next", "y"]
            : List String).getD (e - 1) "") = false := by
  obtain ⟨e, b, h1, h2, h3, -, h5, -⟩ := claim_C4_replace_end_boundary
    ["## Serena MCP Integration", "x", "", "## Next", "y"] 0
    (by decide) (by decide) (by decide)
  exact ⟨e, b, h1, h2, h3, h5⟩

/-- C6: in insert mode the insertion point comes from the earliest line (in
document order) whose stripped text starts with an anchor string, backed up
over the blank lines immediately above it so that the template follows the
last non-blank line; with no anchor line at all, the insertion point is the
end of the document. -/
theorem claim_C6_insertion_point (c : List String) :
    ((∀ i, i < c.length → anchorLine (c.getD i "") = false)
        → find_insertion_point c = c.length)
      ∧ (∀ j, j < c.length → anchorLine (c.getD j "") = true
          → (∀ i, i < j → anchorLine (c.getD i "") = false)
          → find_insertion_point c ≤ j
            ∧ (∀ i, find_insertion_point c ≤ i → i < j
                → isBlank (c.getD i "") = true)
            ∧ (find_insertion_point c = 0
                ∨ isBlank (c.getD (find_insertion_point c - 1) "") = false)) := by
  constructor
  · intro h
    have hf : firstIdx anchorLine c = none :=
      firstIdx_eq_none_iff.2
        (forall_mem_of_getD (P := fun x => anchorLine x = false) h)
    exact find_insertion_point_none hf
  · intro j hj hpj hbefore
    have hf : firstIdx anchorLine c = some j :=
      firstIdx_eq_some_intro hj hpj hbefore
    rw [find_insertion_point_some hf]
    exact ⟨backUp_le c j, backUp_blank c j, backUp_stop c j⟩

theorem claim_C6_witness :
    find_insertion_point ["a"] = 1
      ∧ find_insertion_point ["# Title", "", "## Example Interactions", "body"] ≤ 2
      ∧ isBlank ((["# Title", "", "## Example Interactions", "body"]
          : List String).getD 1 "") = true := by
  have h1 := (claim_C6_insertion_point ["a"]).1 (by decide)
  have h2 := (claim_C6_insertion_point
    ["# Title", "", "## Example Interactions", "body"]).2 2
    (by decide) (by decide) (by decide)
  exact ⟨h1, h2.1, h2.2.1 1 (by decide) (by decide)⟩

/-- C8: in replace mode only the replaced range is substituted — the prefix
below the (blank-folded) start and every line from the computed end boundary
onward reappear unchanged and in the same order around the spliced template. -/
theorem claim_C8_frame (T c : List String) (s e : Nat)
    (hah : already_has_serena_section c = true)
    (hb : find_serena_section_bounds c = some (s, e)) :
    ∃ out s2, update_agent_lines T c = some out
      ∧ s2 ≤ s
      ∧ out.take s2 = c.take s2
      ∧ out.drop (s2 + 2 + T.length + 2) = c.drop e := by
  have hs_lt : s < c.length := firstIdx_eq_some_lt (bounds_inv hb).1
  have hble := backUp_le c s
  have hlen : (c.take (backUpOverBlanks c s)).length = backUpOverBlanks c s := by
    rw [List.length_take]
    exact Nat.min_eq_left (by omega)
  refine ⟨_, backUpOverBlanks c s, update_replace_eq hah hb, hble, ?_, ?_⟩
  · have hassoc : c.take (backUpOverBlanks c s) ++ ["", ""] ++ T ++ ["", ""]
        ++ c.drop e
        = c.take (backUpOverBlanks c s)
          ++ (["", ""] ++ (T ++ (["", ""] ++ c.drop e))) := by
      simp only [List.append_assoc]
    rw [hassoc, List.take_append_eq_append_take, hlen, Nat.sub_self,
      List.take_zero, List.append_nil, List.take_take, Nat.min_self]
  · have hXlen : (c.take (backUpOverBlanks c s) ++ ["", ""] ++ T ++ ["", ""]).length
        = backUpOverBlanks c s + 2 + T.length + 2 := by
      simp only [List.length_append, List.length_cons, List.length_nil, hlen]
    rw [← hXlen, List.drop_left]

theorem claim_C8_witness :
    ∃ out s2,
      update_agent_lines ["T"]
          ["## Serena MCP Integration", "a", "b", "c", "## See Also", "z"]
        = some out
      ∧ s2 ≤ 0
      ∧ out.drop (s2 + 2 + 1 + 2)
        = (["## Serena MCP Integration", "a", "b", "c", "## See Also", "z"]
            : List String).drop 4 := by
  obtain ⟨out, s2, h1, h2, -, h4⟩ := claim_C8_frame ["T"]
    ["## Serena MCP Integration", "a", "b", "c", "## See Also", "z"] 0 4
    (by decide) (by decide)
  exact ⟨out, s2, h1, h2, h4⟩

/-- C9: whenever some line strips exactly to the target heading, the bounds
lookup succeeds with a non-empty range starting at the heading line; hence
the `"Could not find Serena section bounds"` branch is reachable only for
documents that were detected through the loose case-insensitive `"serena"`
substring and have no exact heading line. -/
theorem claim_C9_bounds_found (T c : List String) :
    ((∃ i, i < c.length ∧ strip (c.getD i "") = serenaHeading)
        → ∃ s e, find_serena_section_bounds c = some (s, e) ∧ s < e
            ∧ strip (c.getD s "") = serenaHeading)
      ∧ (update_agent_lines T c = none
          → (∃ l ∈ c, ∃ t u, (lowerStr l).data = t ++ "serena".data ++ u)
            ∧ (∀ l ∈ c, strip l ≠ serenaHeading)) := by
  constructor
  · rintro ⟨i, hi, hsi⟩
    cases hf : firstIdx (fun l => strip l == serenaHeading) c with
    | none =>
      have := firstIdx_eq_none_iff.1 hf (c.getD i "") (getD_mem hi)
      rw [hsi] at this
      simp at this
    | some s =>
      have hss : strip (c.getD s "") = serenaHeading :=
        beq_iff_eq.1 (firstIdx_eq_some_getD hf)
      have hnbs : isBlank (c.getD s "") = false := by
        rw [isBlank, hss]
        decide
      have hs_lt : s < c.length := firstIdx_eq_some_lt hf
      cases hk : firstIdx isL2Heading (c.drop (s + 1)) with
      | some k =>
        exact ⟨s, _, bounds_some_k hf hk, trim_gt c (by omega) hnbs, hss⟩
      | none =>
        exact ⟨s, _, bounds_none_k hf hk, trim_gt c (by omega) hnbs, hss⟩
  · intro hn
    by_cases hah : already_has_serena_section c = true
    · cases hb : find_serena_section_bounds c with
      | some se =>
        obtain ⟨s, e⟩ := se
        rw [update_replace_eq hah hb] at hn
        cases hn
      | none =>
        have hfnone : firstIdx (fun l => strip l == serenaHeading) c = none := by
          cases hf : firstIdx (fun l => strip l == serenaHeading) c with
          | none => rfl
          | some s =>
            cases hk : firstIdx isL2Heading (c.drop (s + 1)) with
            | some k => rw [bounds_some_k hf hk] at hb; cases hb
            | none => rw [bounds_none_k hf hk] at hb; cases hb
        constructor
        · rcases List.any_eq_true.1 hah with ⟨l, hl, hp⟩
          rw [Bool.or_eq_true] at hp
          rcases hp with hc | hc
          · exact ⟨l, hl, containsStr_iff.1 (contains_heading_imp_serena hc)⟩
          · exact ⟨l, hl, containsStr_iff.1 hc⟩
        · intro l hl hs
          have := firstIdx_eq_none_iff.1 hfnone l hl
          rw [hs] at this
          simp at this
    · have hahf : already_has_serena_section c = false := by simpa using hah
      rw [update_insert_eq hahf] at hn
      cases hn

theorem claim_C9_witness :
    (∃ s e, find_serena_section_bounds ["## Serena MCP Integration"]
          = some (s, e)
        ∧ s < e
        ∧ strip ((["## Serena MCP Integration"] : List String).getD s "")
          = serenaHeading)
      ∧ ((∃ l ∈ (["about serena"] : List String),
            ∃ t u, (lowerStr l).data = t ++ "serena".data ++ u)
        ∧ (∀ l ∈ (["about serena"] : List String), strip l ≠ serenaHeading)) :=
  ⟨(claim_C9_bounds_found ["T"] ["## Serena MCP Integration"]).1
      ⟨0, by decide, by decide⟩,
   (claim_C9_bounds_found ["T"] ["about serena"]).2 (by decide)⟩
